import Mathlib

/-!
Verification development for the speed_connection_europe pipeline.

The repository fuses census population grid cells, healthcare-accessibility
cells and Ookla internet-speed tiles onto H3 hexagons.  The development below
embeds, as executable Lean definitions over exact rational arithmetic, the
pieces of the pipeline the claims are about:

* the weight-matrix builders `matrix/grid_h3_matrix.py` and
  `matrix/quadkey_h3_matrix.py` (both scripts share the same control flow and
  arithmetic; the embedding uses the neutral field names source_key and
  cell_index of the persisted schema, which are grid_id resp. quadkey in the
  two scripts);
* the weighted aggregation of `etl_population.py` (convert_to_h3_matrix) and
  `etl_internet.py` (process_quarter_file and the rollup step of main);
* the dataset fuser `merge_datasets.py` (merge_datasets, filter_and_finalize,
  save_output).

Geometric primitives (pyproj reprojection, shapely intersection areas, h3
candidate disks) are not re-implemented: each source geometry is embedded
together with the data those libraries hand back to the script, namely whether
the reprojection step succeeds, the reprojected area, and the intersection
area with each candidate hexagon.  Everything the scripts themselves compute
with those numbers is embedded faithfully.

Polars semantics used by the scripts and mirrored here:
* arithmetic on a null (None) value yields null, so value * weight is null
  when value is null;
* Expr.sum over a group ignores nulls and returns 0 when every value of the
  group is null, never null;
* list.mean ignores nulls inside the list and returns null when no non-null
  element remains;
* an inner or left join on a key matches every pair of rows with equal key,
  and a left-join row without a match is kept with null right-hand columns.
-/

/-- Polars Expr.sum over a nullable column: nulls are skipped and the empty
or all-null sum is 0. -/
def plSum (xs : List (Option ℚ)) : ℚ :=
  (xs.filterMap id).sum

/-- One row of the persisted weight matrix: the schema
(source_key, cell_index, weight).  In matrix/grid_h3_matrix.py the key column
is called grid_id, in matrix/quadkey_h3_matrix.py it is called quadkey. -/
structure MatrixEntry where
  source_key : String
  cell_index : String
  weight : ℚ
deriving DecidableEq

/-- One source geometry as seen by process_grid_batch / process_quadkey_batch,
together with the values the geometry libraries return for it: whether the
reprojection and polygon construction succeed without raising, the planar area
of the reprojected polygon, and for every candidate hexagon of the k-ring the
area of its intersection with the polygon (0 when they do not overlap). -/
structure GeomInput where
  source_key : String
  reprojects : Bool
  area : ℚ
  candidates : List (String × ℚ)
deriving DecidableEq

/-- Body of the per-geometry loop of process_grid_batch
(matrix/grid_h3_matrix.py lines 37-70) and of process_quadkey_batch
(matrix/quadkey_h3_matrix.py lines 31-59): a geometry that raises is skipped
by the except branch, a geometry with non-positive area is skipped by the
area check, and otherwise each candidate cell with intersection fraction
strictly above 0.001 contributes one matrix row. -/
def processGeom (g : GeomInput) : List MatrixEntry :=
  if g.reprojects = false then []
  else if g.area ≤ 0 then []
  else g.candidates.filterMap (fun c =>
    if 1 / 1000 < c.2 / g.area then
      some ⟨g.source_key, c.1, c.2 / g.area⟩
    else none)

/-- process_grid_batch: the batch loop appends the entries of each geometry in
order. -/
def process_grid_batch (batch : List GeomInput) : List MatrixEntry :=
  batch.flatMap processGeom

/-- calculate_intersection_weights: the geometries are cut into batches of 500
and the batch results are concatenated in order (also on the process-pool
path, since executor.map preserves argument order), which equals one pass over
the whole list. -/
def calculate_intersection_weights (gs : List GeomInput) : List MatrixEntry :=
  gs.flatMap processGeom

/-- Sum of the weights of all matrix rows carrying a given source key:
pl.col("weight").sum().over("grid_id"). -/
def keyWeightSum (m : List MatrixEntry) (k : String) : ℚ :=
  ((m.filter (fun e => e.source_key == k)).map MatrixEntry.weight).sum

/-- The final per-source normalization of main (grid_h3_matrix.py lines
160-163, quadkey_h3_matrix.py lines 155-158): every weight is divided by the
weight sum over its own source key. -/
def normalize_weights (m : List MatrixEntry) : List MatrixEntry :=
  m.map (fun e => ⟨e.source_key, e.cell_index, e.weight / keyWeightSum m e.source_key⟩)

/-- The matrix file as a later run finds it on disk.  complete is true when
the file is a fully written matrix and false when it is the remnant of an
aborted write; Path.exists, the only check main performs, cannot tell the two
apart and is modelled by the Option being some. -/
structure MatrixArtifact where
  complete : Bool
  rows : List MatrixEntry
deriving DecidableEq

/-- Control flow of main (grid_h3_matrix.py lines 127-171,
quadkey_h3_matrix.py lines 122-165): if the output file exists the run returns
at once, otherwise the matrix is computed, normalized and written straight to
the final path in one step. -/
def grid_main (fs : Option MatrixArtifact) (gs : List GeomInput) :
    Option MatrixArtifact :=
  match fs with
  | some a => some a
  | none =>
    if gs = [] then none
    else if calculate_intersection_weights gs = [] then none
    else some ⟨true, normalize_weights (calculate_intersection_weights gs)⟩

/-- One column slice of a source attribute table keyed by source_key, as the
weighted aggregators consume it after cleaning: the value is nullable.
convert_to_h3_matrix (etl_population.py) and process_quarter_file
(etl_internet.py) apply the same polars expressions independently to every
attribute column, so the additive aggregation is embedded once over such a
slice. -/
structure AttrRow where
  source_key : String
  value : Option ℚ
deriving DecidableEq

/-- The inner join of an attribute table with the weight matrix on the source
key (df_grid.join(matrix, on=grid_id, how=inner)): every pair of rows with
equal keys. -/
def attrJoin (rows : List AttrRow) (m : List MatrixEntry) :
    List (AttrRow × MatrixEntry) :=
  rows.flatMap (fun r =>
    (m.filter (fun e => e.source_key == r.source_key)).map (fun e => (r, e)))

/-- pl.col(col) * pl.col("weight"): null times anything is null. -/
def wContrib (p : AttrRow × MatrixEntry) : Option ℚ :=
  p.1.value.map (fun v => v * p.2.weight)

/-- The joined rows that fall into one H3 cell. -/
def cellJoinRows (rows : List AttrRow) (m : List MatrixEntry) (cell : String) :
    List (AttrRow × MatrixEntry) :=
  (attrJoin rows m).filter (fun p => p.2.cell_index == cell)

/-- The additive aggregate of one column for one H3 cell
(group_by h3_index followed by pl.col(w_col).sum() in convert_to_h3_matrix,
etl_population.py lines 118-138).  Polars sum never returns null, so the
output column holds some value for every cell of the group-by, 0 when every
contribution of the group is null. -/
def cellAgg (rows : List AttrRow) (m : List MatrixEntry) (cell : String) :
    Option ℚ :=
  some (plSum ((cellJoinRows rows m cell).map wContrib))

/-- The H3 cells appearing in the aggregated output: the distinct group keys
of the group_by. -/
def outCells (rows : List AttrRow) (m : List MatrixEntry) : List String :=
  ((attrJoin rows m).map (fun p => p.2.cell_index)).dedup

/-- Sum of the aggregated column over every output cell. -/
def totalOut (rows : List AttrRow) (m : List MatrixEntry) : ℚ :=
  ((outCells rows m).map
    (fun cell => plSum ((cellJoinRows rows m cell).map wContrib))).sum

/-- Whether a source key has at least one row in the weight matrix. -/
def keyInMatrix (m : List MatrixEntry) (k : String) : Bool :=
  m.any (fun e => e.source_key == k)

/-- Sum of the original (non-null) attribute values over the source geometries
that are present in the weight matrix. -/
def totalIn (rows : List AttrRow) (m : List MatrixEntry) : ℚ :=
  plSum ((rows.filter (fun r => keyInMatrix m r.source_key)).map AttrRow.value)

/-- One raw census grid row as read from the GPKG in convert_to_h3_matrix
(etl_population.py): the thirteen population columns and LAND_SURFACE, all
numeric, where the census nodata sentinel is the value -9999. -/
structure CensusRow where
  GRD_ID : String
  T : ℚ
  M : ℚ
  F : ℚ
  Y_LT15 : ℚ
  Y_1564 : ℚ
  Y_GE65 : ℚ
  EMP : ℚ
  NAT : ℚ
  EU_OTH : ℚ
  OTH : ℚ
  SAME : ℚ
  CHG_IN : ℚ
  CHG_OUT : ℚ
  LAND_SURFACE : ℚ
deriving DecidableEq

/-- A census row after the cleaning loop of convert_to_h3_matrix: the
population columns are nullable, LAND_SURFACE stays plain numeric. -/
structure CleanCensusRow where
  GRD_ID : String
  T : Option ℚ
  M : Option ℚ
  F : Option ℚ
  Y_LT15 : Option ℚ
  Y_1564 : Option ℚ
  Y_GE65 : Option ℚ
  EMP : Option ℚ
  NAT : Option ℚ
  EU_OTH : Option ℚ
  OTH : Option ℚ
  SAME : Option ℚ
  CHG_IN : Option ℚ
  CHG_OUT : Option ℚ
  LAND_SURFACE : ℚ
deriving DecidableEq

/-- gdf_clean[col].replace(-9999, None) for one value. -/
def cleanVal (v : ℚ) : Option ℚ :=
  if v = -9999 then none else some v

/-- The cleaning loop of convert_to_h3_matrix (etl_population.py lines
101-108): the replace runs over available_pop_cols only, so LAND_SURFACE is
kept as is. -/
def clean_census_row (r : CensusRow) : CleanCensusRow :=
  ⟨r.GRD_ID, cleanVal r.T, cleanVal r.M, cleanVal r.F, cleanVal r.Y_LT15,
   cleanVal r.Y_1564, cleanVal r.Y_GE65, cleanVal r.EMP, cleanVal r.NAT,
   cleanVal r.EU_OTH, cleanVal r.OTH, cleanVal r.SAME, cleanVal r.CHG_IN,
   cleanVal r.CHG_OUT, r.LAND_SURFACE⟩

/-- The T column slice of the cleaned census table. -/
def censusT (rows : List CensusRow) : List AttrRow :=
  rows.map (fun r => ⟨r.GRD_ID, (clean_census_row r).T⟩)

/-- The LAND_SURFACE column slice of the cleaned census table (never null). -/
def censusLand (rows : List CensusRow) : List AttrRow :=
  rows.map (fun r => ⟨r.GRD_ID, some ((clean_census_row r).LAND_SURFACE)⟩)

/-- The inner join of raw census rows with the matrix on GRD_ID. -/
def censusJoin (rows : List CensusRow) (m : List MatrixEntry) :
    List (CensusRow × MatrixEntry) :=
  rows.flatMap (fun r =>
    (m.filter (fun e => e.source_key == r.GRD_ID)).map (fun e => (r, e)))

/-- One Ookla tile row of a quarter file as process_quarter_file
(etl_internet.py lines 30-88) reads it: the three intensive columns and the
two count columns, each nullable. -/
structure TileRow where
  quadkey : String
  avg_d_kbps : Option ℚ
  avg_u_kbps : Option ℚ
  avg_lat_ms : Option ℚ
  tests : Option ℚ
  devices : Option ℚ
deriving DecidableEq

/-- df.join(matrix, on="quadkey", how="inner"). -/
def tileJoin (rows : List TileRow) (m : List MatrixEntry) :
    List (TileRow × MatrixEntry) :=
  rows.flatMap (fun r =>
    (m.filter (fun e => e.source_key == r.quadkey)).map (fun e => (r, e)))

/-- The joined tile rows of one H3 cell. -/
def tileCellRows (rows : List TileRow) (m : List MatrixEntry) (cell : String) :
    List (TileRow × MatrixEntry) :=
  (tileJoin rows m).filter (fun p => p.2.cell_index == cell)

/-- pl.col("weight").sum().alias("weight_sum") of one group: the matrix weight
of every joined row of the cell, with no regard to which columns of the row
are null.  This one denominator is shared by all intensive columns. -/
def weight_sum (rows : List TileRow) (m : List MatrixEntry) (cell : String) : ℚ :=
  ((tileCellRows rows m cell).map (fun p => p.2.weight)).sum

/-- pl.col(w_c).sum() of one group for one intensive column: null values drop
out of the numerator. -/
def col_weighted_sum (rows : List TileRow) (m : List MatrixEntry) (cell : String)
    (proj : TileRow → Option ℚ) : ℚ :=
  plSum ((tileCellRows rows m cell).map (fun p => (proj p.1).map (fun v => v * p.2.weight)))

/-- The per-quarter weighted average of an intensive column for one cell:
sum_c / weight_sum (etl_internet.py lines 66-69). -/
def quarterAvg (rows : List TileRow) (m : List MatrixEntry) (cell : String)
    (proj : TileRow → Option ℚ) : ℚ :=
  col_weighted_sum rows m cell proj / weight_sum rows m cell

/-- Total matrix weight that one tile row brings to one cell. -/
def rowCellWeight (r : TileRow) (m : List MatrixEntry) (cell : String) : ℚ :=
  ((m.filter (fun e => e.source_key == r.quadkey && e.cell_index == cell)).map
    MatrixEntry.weight).sum

/-- The data_type tag of a quarter file. -/
inductive Modality
  | fixedNet
  | mobileNet
deriving DecidableEq

/-- The non-null per-cell values of one cached quarter file. -/
structure CacheVals where
  avg_d_kbps : ℚ
  avg_u_kbps : ℚ
  avg_lat_ms : ℚ
deriving DecidableEq

/-- One cached per-quarter H3 table written by process_quarter_file.  Its rows
are keyed by h3_index and the key is unique within the file, being the group
key of the group_by that produced it, so the left join of main looks up at
most one matching row per cell. -/
structure QuarterCache where
  modality : Modality
  year : Nat
  qtr : Nat
  rows : List (String × CacheVals)
deriving DecidableEq

/-- The value one quarter file contributes to one cell of the merged wide
table of etl_internet main: the left join keeps the cell with null columns
when the quarter has no row for it. -/
def quarterColValue (c : QuarterCache) (cell : String) (proj : CacheVals → ℚ) :
    Option ℚ :=
  (c.rows.find? (fun r => r.1 == cell)).map (fun r => proj r.2)

/-- pl.concat_list(cols).list.mean(): polars folds over the list entries,
skipping nulls while accumulating a running sum and count, and returns null
when the count stays 0. -/
def plListMean (xs : List (Option ℚ)) : Option ℚ :=
  let p := xs.foldl
    (fun acc x =>
      match x with
      | none => acc
      | some v => (acc.1 + v, acc.2 + 1))
    ((0 : ℚ), (0 : ℕ))
  if p.2 = 0 then none else some (p.1 / (p.2 : ℚ))

/-- One reference-period rollup column of etl_internet main (lines 163-211):
the quarter columns whose name matches the modality/year filter are collected
with concat_list and averaged with list.mean.  A quarter column of the wide
table holds, for each cell, the left-join lookup into that quarter cache. -/
def rollupCol (caches : List QuarterCache) (cell : String)
    (pick : QuarterCache → Bool) (proj : CacheVals → ℚ) : Option ℚ :=
  plListMean ((caches.filter pick).map (fun c => quarterColValue c cell proj))

/-- The non-null quarterly values of one cell for one rollup column. -/
def availableVals (caches : List QuarterCache) (cell : String)
    (pick : QuarterCache → Bool) (proj : CacheVals → ℚ) : List ℚ :=
  ((caches.filter pick).map (fun c => quarterColValue c cell proj)).filterMap id

/-- Column filter of fixed_download_2023: name starts with fixed_2023_ and
holds avg_d_kbps. -/
def pickFixed2023 (c : QuarterCache) : Bool :=
  decide (c.modality = Modality.fixedNet) && (c.year == 2023)

/-- Column filter of the fixed *_total rollups: name starts with fixed_ and
holds a quarter tag. -/
def pickFixedAll (c : QuarterCache) : Bool :=
  decide (c.modality = Modality.fixedNet)

/-- Column filter of mobile_download_2023 and friends. -/
def pickMobile2023 (c : QuarterCache) : Bool :=
  decide (c.modality = Modality.mobileNet) && (c.year == 2023)

/-- Column filter of the mobile *_total rollups. -/
def pickMobileAll (c : QuarterCache) : Bool :=
  decide (c.modality = Modality.mobileNet)

/-- fixed_download_2023 of etl_internet main. -/
def fixed_download_2023 (caches : List QuarterCache) (cell : String) : Option ℚ :=
  rollupCol caches cell pickFixed2023 CacheVals.avg_d_kbps

/-- fixed_upload_2023 of etl_internet main. -/
def fixed_upload_2023 (caches : List QuarterCache) (cell : String) : Option ℚ :=
  rollupCol caches cell pickFixed2023 CacheVals.avg_u_kbps

/-- fixed_latency_2023 of etl_internet main. -/
def fixed_latency_2023 (caches : List QuarterCache) (cell : String) : Option ℚ :=
  rollupCol caches cell pickFixed2023 CacheVals.avg_lat_ms

/-- fixed_download_total of etl_internet main. -/
def fixed_download_total (caches : List QuarterCache) (cell : String) : Option ℚ :=
  rollupCol caches cell pickFixedAll CacheVals.avg_d_kbps

/-- fixed_upload_total of etl_internet main. -/
def fixed_upload_total (caches : List QuarterCache) (cell : String) : Option ℚ :=
  rollupCol caches cell pickFixedAll CacheVals.avg_u_kbps

/-- fixed_latency_total of etl_internet main. -/
def fixed_latency_total (caches : List QuarterCache) (cell : String) : Option ℚ :=
  rollupCol caches cell pickFixedAll CacheVals.avg_lat_ms

/-- mobile_download_2023 of etl_internet main. -/
def mobile_download_2023 (caches : List QuarterCache) (cell : String) : Option ℚ :=
  rollupCol caches cell pickMobile2023 CacheVals.avg_d_kbps

/-- mobile_upload_2023 of etl_internet main. -/
def mobile_upload_2023 (caches : List QuarterCache) (cell : String) : Option ℚ :=
  rollupCol caches cell pickMobile2023 CacheVals.avg_u_kbps

/-- mobile_download_total of etl_internet main. -/
def mobile_download_total (caches : List QuarterCache) (cell : String) : Option ℚ :=
  rollupCol caches cell pickMobileAll CacheVals.avg_d_kbps

/-- mobile_latency_total of etl_internet main. -/
def mobile_latency_total (caches : List QuarterCache) (cell : String) : Option ℚ :=
  rollupCol caches cell pickMobileAll CacheVals.avg_lat_ms

/-- mobile_latency_2023 of etl_internet main. -/
def mobile_latency_2023 (caches : List QuarterCache) (cell : String) : Option ℚ :=
  rollupCol caches cell pickMobile2023 CacheVals.avg_lat_ms

/-- mobile_upload_total of etl_internet main. -/
def mobile_upload_total (caches : List QuarterCache) (cell : String) : Option ℚ :=
  rollupCol caches cell pickMobileAll CacheVals.avg_u_kbps

/-- A population per-cell row as prepare_population_data (merge_datasets.py)
hands it to the fuser, after the census columns were renamed to the pop_*
names.  The counts come out of the weighted sum aggregation, hence are
non-null rationals at this stage. -/
structure PopRow where
  h3_index : String
  lat : ℚ
  lon : ℚ
  pop_total : ℚ
  pop_male : ℚ
  pop_female : ℚ
  pop_age_lt15 : ℚ
  pop_age_15_64 : ℚ
  pop_age_ge65 : ℚ
  pop_employed : ℚ
  pop_national : ℚ
  pop_eu_other : ℚ
  pop_other : ℚ
  pop_same_residence : ℚ
  pop_change_in : ℚ
  pop_change_out : ℚ
deriving DecidableEq

/-- A health per-cell row after prepare_health_data: accessibility_mean
renamed to health_distance, nullable. -/
structure HealthRow where
  h3_index : String
  health_distance : Option ℚ
deriving DecidableEq

/-- An internet per-cell row after prepare_internet_data: the twelve rollup
columns, each nullable. -/
structure InternetRow where
  h3_index : String
  fixed_download_2023 : Option ℚ
  fixed_upload_2023 : Option ℚ
  fixed_latency_2023 : Option ℚ
  fixed_download_total : Option ℚ
  fixed_upload_total : Option ℚ
  fixed_latency_total : Option ℚ
  mobile_download_2023 : Option ℚ
  mobile_upload_2023 : Option ℚ
  mobile_latency_2023 : Option ℚ
  mobile_download_total : Option ℚ
  mobile_upload_total : Option ℚ
  mobile_latency_total : Option ℚ
deriving DecidableEq

/-- One fused row: the population backbone, the health distance it joined
with, and the internet columns, which are all null together exactly when the
left join found no internet row for the cell. -/
structure MergedRow where
  pop : PopRow
  health_distance : Option ℚ
  internet : Option InternetRow
deriving DecidableEq

/-- merge_datasets (merge_datasets.py lines 72-86): population inner-joined
with health on h3_index, then the result left-joined with internet on
h3_index. -/
def merge_datasets (pop : List PopRow) (health : List HealthRow)
    (internet : List InternetRow) : List MergedRow :=
  (pop.flatMap (fun p =>
    (health.filter (fun h => h.h3_index == p.h3_index)).map (fun h => (p, h)))).flatMap
    (fun ph =>
      let ms := internet.filter (fun i => i.h3_index == ph.1.h3_index)
      if ms.isEmpty then [⟨ph.1, ph.2.health_distance, none⟩]
      else ms.map (fun i => ⟨ph.1, ph.2.health_distance, some i⟩))

/-- filter_and_finalize (merge_datasets.py lines 89-101): keep only rows with
pop_total > 0 and a non-null health_distance.  The subsequent column
reordering does not change the rows. -/
def filter_and_finalize (rows : List MergedRow) : List MergedRow :=
  rows.filter (fun r =>
    decide (0 < r.pop.pop_total) && r.health_distance.isSome)

/-- Rust f64 rounding to the nearest integer, half away from zero, as
pl.Expr.round(0) applies it. -/
def roundAway (x : ℚ) : ℤ :=
  if 0 ≤ x then (x + 1 / 2).floor else -((-x + 1 / 2).floor)

/-- pl.Expr.round(d): rounding to d decimal digits. -/
def roundTo (d : ℕ) (x : ℚ) : ℚ :=
  (roundAway (x * 10 ^ d) : ℚ) / 10 ^ d

/-- A persisted row of data_h3_res8.parquet after the casts of save_output:
population counts as integers, lat/lon at six decimals, every other float at
two decimals. -/
structure SavedRow where
  h3_index : String
  lat : ℚ
  lon : ℚ
  pop_total : ℤ
  pop_male : ℤ
  pop_female : ℤ
  pop_age_lt15 : ℤ
  pop_age_15_64 : ℤ
  pop_age_ge65 : ℤ
  pop_employed : ℤ
  pop_national : ℤ
  pop_eu_other : ℤ
  pop_other : ℤ
  pop_same_residence : ℤ
  pop_change_in : ℤ
  pop_change_out : ℤ
  health_distance : Option ℚ
  internet : Option InternetRow
deriving DecidableEq

/-- Rounding of the internet columns in save_output: each is a float column
and gets round(2); rounding a null gives null. -/
def roundInternetRow (i : InternetRow) : InternetRow :=
  ⟨i.h3_index,
   i.fixed_download_2023.map (roundTo 2), i.fixed_upload_2023.map (roundTo 2),
   i.fixed_latency_2023.map (roundTo 2), i.fixed_download_total.map (roundTo 2),
   i.fixed_upload_total.map (roundTo 2), i.fixed_latency_total.map (roundTo 2),
   i.mobile_download_2023.map (roundTo 2), i.mobile_upload_2023.map (roundTo 2),
   i.mobile_latency_2023.map (roundTo 2), i.mobile_download_total.map (roundTo 2),
   i.mobile_upload_total.map (roundTo 2), i.mobile_latency_total.map (roundTo 2)⟩

/-- save_output (merge_datasets.py lines 133-165): the population columns get
round(0) and a cast to Int64, lat and lon get round(6), and every remaining
float column, health_distance and the internet rollups, gets round(2). -/
def save_output (rows : List MergedRow) : List SavedRow :=
  rows.map (fun r =>
    ⟨r.pop.h3_index, roundTo 6 r.pop.lat, roundTo 6 r.pop.lon,
     roundAway r.pop.pop_total, roundAway r.pop.pop_male,
     roundAway r.pop.pop_female, roundAway r.pop.pop_age_lt15,
     roundAway r.pop.pop_age_15_64, roundAway r.pop.pop_age_ge65,
     roundAway r.pop.pop_employed, roundAway r.pop.pop_national,
     roundAway r.pop.pop_eu_other, roundAway r.pop.pop_other,
     roundAway r.pop.pop_same_residence, roundAway r.pop.pop_change_in,
     roundAway r.pop.pop_change_out,
     r.health_distance.map (roundTo 2),
     r.internet.map roundInternetRow⟩)

theorem plSum_nil : plSum [] = 0 := rfl

theorem plSum_cons (x : Option ℚ) (xs : List (Option ℚ)) :
    plSum (x :: xs) = x.getD 0 + plSum xs := by
  cases x <;> simp [plSum, List.filterMap_cons]

theorem plSum_append (xs ys : List (Option ℚ)) :
    plSum (xs ++ ys) = plSum xs + plSum ys := by
  simp [plSum, List.filterMap_append]

theorem plSum_map_eq_sum_getD {α : Type} (l : List α) (f : α → Option ℚ) :
    plSum (l.map f) = (l.map (fun x => (f x).getD 0)).sum := by
  induction l with
  | nil => rfl
  | cons a t ih => simp [plSum_cons, ih]

theorem plSum_map_some {α : Type} (l : List α) (h : α → ℚ) :
    plSum (l.map (fun x => some (h x))) = (l.map h).sum := by
  induction l with
  | nil => rfl
  | cons a t ih => simp [plSum_cons, ih]

theorem plSum_map_ite_none {α : Type} (l : List α) (q : α → Bool) (h : α → ℚ) :
    plSum (l.map (fun x => if q x = true then none else some (h x)))
      = ((l.filter (fun x => !q x)).map h).sum := by
  induction l with
  | nil => rfl
  | cons a t ih =>
    by_cases hq : q a = true <;>
      simp [hq, plSum_cons, ih, List.filter_cons]

theorem plSum_eq_zero_of_all_none {α : Type} (l : List α) (f : α → Option ℚ)
    (h : ∀ x ∈ l, f x = none) : plSum (l.map f) = 0 := by
  induction l with
  | nil => rfl
  | cons a t ih =>
    have ha := h a (by simp)
    simp [plSum_cons, ha, ih (fun x hx => h x (by simp [hx]))]

theorem sum_map_div {α : Type} (l : List α) (f : α → ℚ) (c : ℚ) :
    (l.map (fun x => f x / c)).sum = (l.map f).sum / c := by
  induction l with
  | nil => simp
  | cons a t ih => simp [ih, add_div]

/-- Summing a rational-valued map over a flatMap equals the sum of the
per-element sums. -/
theorem sum_map_flatMap {α β : Type} (l : List α) (f : α → List β) (g : β → ℚ) :
    ((l.flatMap f).map g).sum = (l.map (fun x => ((f x).map g).sum)).sum := by
  induction l with
  | nil => rfl
  | cons a t ih => simp [ih]

theorem sum_map_single_of_nodup {α : Type} [DecidableEq α] (ks : List α)
    (hnd : ks.Nodup) (b : α) (hb : b ∈ ks) (v : α → ℚ) :
    (ks.map (fun c => if b = c then v c else 0)).sum = v b := by
  induction ks with
  | nil => cases hb
  | cons a t ih =>
    rcases List.mem_cons.mp hb with h | h
    · subst h
      have hnotmem : b ∉ t := (List.nodup_cons.mp hnd).1
      have hz : (t.map (fun c => if b = c then v c else 0)).sum = 0 := by
        apply List.sum_eq_zero
        intro x hx
        rcases List.mem_map.mp hx with ⟨c, hc, hcx⟩
        have : b ≠ c := fun hbc => hnotmem (hbc ▸ hc)
        simp [← hcx, this]
      simp [hz]
    · have hba : b ≠ a := by
        rintro rfl
        exact (List.nodup_cons.mp hnd).1 h
      simp [hba, ih (List.nodup_cons.mp hnd).2 h]

/-- Grouping a list by a key and summing each group sums the whole list:
the partition underlying a polars group_by aggregation. -/
theorem sum_over_fibers {α : Type} (l : List α) (key : α → String) (g : α → ℚ) :
    (((l.map key).dedup).map
        (fun c => ((l.filter (fun x => key x == c)).map g).sum)).sum
      = (l.map g).sum := by
  have aux : ∀ (ks : List String), ks.Nodup → ∀ (t : List α),
      (∀ x ∈ t, key x ∈ ks) →
      (ks.map (fun c => ((t.filter (fun x => key x == c)).map g).sum)).sum
        = (t.map g).sum := by
    intro ks hnd t
    induction t with
    | nil => intro _; simp
    | cons a t ih =>
      intro hcov
      have hcovt : ∀ x ∈ t, key x ∈ ks := fun x hx => hcov x (by simp [hx])
      have hka : key a ∈ ks := hcov a (by simp)
      have hsplit : ∀ c : String,
          (((a :: t).filter (fun x => key x == c)).map g).sum
            = (if key a = c then g a else 0)
              + ((t.filter (fun x => key x == c)).map g).sum := by
        intro c
        by_cases h : key a = c
        · simp [List.filter_cons, h]
        · have : (key a == c) = false := by
            simp [h]
          simp [List.filter_cons, this, h]
      calc (ks.map (fun c => (((a :: t).filter (fun x => key x == c)).map g).sum)).sum
          = (ks.map (fun c => (if key a = c then g a else 0)
              + ((t.filter (fun x => key x == c)).map g).sum)).sum := by
            exact congrArg List.sum (List.map_congr_left (fun c _ => hsplit c))
        _ = (ks.map (fun c => if key a = c then g a else 0)).sum
              + (ks.map (fun c => ((t.filter (fun x => key x == c)).map g).sum)).sum := by
            rw [← List.sum_map_add]
        _ = g a + (t.map g).sum := by
            rw [sum_map_single_of_nodup ks hnd (key a) hka, ih hcovt]
        _ = ((a :: t).map g).sum := by simp
  exact aux ((l.map key).dedup) (List.nodup_dedup _) l
    (fun x hx => List.mem_dedup.mpr (List.mem_map.mpr ⟨x, hx, rfl⟩))

/-- Every row the builder emits carries a weight strictly above the 0.001
materiality threshold. -/
theorem builder_entry_weight_gt (gs : List GeomInput) :
    ∀ e ∈ calculate_intersection_weights gs, 1 / 1000 < e.weight := by
  intro e he
  rcases List.mem_flatMap.mp he with ⟨g, _, hge⟩
  rw [processGeom] at hge
  split at hge
  · cases hge
  · split at hge
    · cases hge
    · rcases List.mem_filterMap.mp hge with ⟨c, _, hsome⟩
      split at hsome
      · cases hsome
        simpa using (by assumption : 1 / 1000 < c.2 / g.area)
      · cases hsome

/-- Keys survive normalization unchanged. -/
theorem normalize_weights_keys (m : List MatrixEntry) (k : String) :
    (∃ e ∈ normalize_weights m, e.source_key = k) ↔ ∃ e ∈ m, e.source_key = k := by
  constructor
  · rintro ⟨e', he', hk⟩
    rcases List.mem_map.mp he' with ⟨e, he, rfl⟩
    exact ⟨e, he, hk⟩
  · rintro ⟨e, he, hk⟩
    exact ⟨_, List.mem_map.mpr ⟨e, he, rfl⟩, hk⟩

/-- Claim C1: after the final per-source normalization, the weights of every
source key present in the persisted matrix sum to exactly 1 (hence within any
positive tolerance), and a source geometry whose candidate hexagons all have
zero intersection overlap contributes no matrix entries at all. -/
theorem weight_matrix_per_source_sums_to_one (gs : List GeomInput) (k : String)
    (g : GeomInput)
    (hk : ∃ e ∈ normalize_weights (calculate_intersection_weights gs),
      e.source_key = k)
    (hg : ∀ c ∈ g.candidates, c.2 ≤ 0) :
    keyWeightSum (normalize_weights (calculate_intersection_weights gs)) k = 1 ∧
    processGeom g = [] := by
  constructor
  · set m := calculate_intersection_weights gs with hm
    set S := keyWeightSum m k with hS
    have hfiber :
        (normalize_weights m).filter (fun e => e.source_key == k)
          = ((m.filter (fun e => e.source_key == k)).map
              (fun e => ⟨e.source_key, e.cell_index, e.weight / keyWeightSum m e.source_key⟩)) := by
      rw [normalize_weights, List.filter_map]
      rfl
    have hmem : ∃ e ∈ m, e.source_key = k := (normalize_weights_keys m k).mp hk
    rcases hmem with ⟨e0, he0, hke0⟩
    have he0f : e0 ∈ m.filter (fun e => e.source_key == k) :=
      List.mem_filter.mpr ⟨he0, by simp [hke0]⟩
    have hpos : 0 < S := by
      rw [hS, keyWeightSum]
      apply List.sum_pos
      · intro x hx
        rcases List.mem_map.mp hx with ⟨e, he, rfl⟩
        have hem : e ∈ m := (List.mem_filter.mp he).1
        exact lt_trans (by norm_num) (builder_entry_weight_gt gs e hem)
      · intro hnil
        rw [List.map_eq_nil_iff] at hnil
        rw [hnil] at he0f
        cases he0f
    have hSne : S ≠ 0 := ne_of_gt hpos
    rw [keyWeightSum, hfiber, List.map_map]
    have hcongr :
        ((m.filter (fun e => e.source_key == k)).map
          (MatrixEntry.weight ∘ fun e =>
            (⟨e.source_key, e.cell_index, e.weight / keyWeightSum m e.source_key⟩ : MatrixEntry)))
        = ((m.filter (fun e => e.source_key == k)).map (fun e => e.weight / S)) := by
      apply List.map_congr_left
      intro e he
      have : e.source_key = k := by
        have := (List.mem_filter.mp he).2
        simpa using this
      simp [Function.comp, this, hS]
    rw [hcongr, sum_map_div, ← keyWeightSum, ← hS]
    exact div_self hSne
  · rw [processGeom]
    split
    · rfl
    · split
      · rfl
      · apply List.filterMap_eq_nil_iff.mpr
        intro c hc
        have harea : 0 < g.area := lt_of_not_ge (by assumption)
        have hw : c.2 / g.area ≤ 0 :=
          div_nonpos_iff.mpr (Or.inr ⟨hg c hc, le_of_lt harea⟩)
        have : ¬ (1 / 1000 < c.2 / g.area) :=
          not_lt.mpr (le_trans hw (by norm_num))
        rw [if_neg this]

/-- Witness for C1 at a concrete batch: one geometry of area 1 with overlap
fractions 1/2 and 1/4 normalizes to weights 2/3 and 1/3, and a geometry with
zero overlap on its only candidate produces nothing. -/
theorem weight_matrix_per_source_sums_to_one_witness :
    keyWeightSum (normalize_weights (calculate_intersection_weights
      [⟨"g1", true, 1, [("c0", 1 / 2), ("c1", 1 / 4)]⟩])) "g1" = 1 ∧
    processGeom ⟨"g2", true, 1, [("c0", 0)]⟩ = [] :=
  weight_matrix_per_source_sums_to_one
    [⟨"g1", true, 1, [("c0", 1 / 2), ("c1", 1 / 4)]⟩] "g1"
    ⟨"g2", true, 1, [("c0", 0)]⟩
    (by
      refine ⟨_, List.mem_map.mpr ⟨⟨"g1", "c0", 1 / 2⟩, ?_, rfl⟩, rfl⟩
      norm_num [calculate_intersection_weights, processGeom, List.filterMap_cons])
    (by simp)

theorem plSum_filter_map {α : Type} (l : List α) (p : α → Bool) (f : α → Option ℚ) :
    plSum ((l.filter p).map f)
      = (l.map (fun x => if p x = true then (f x).getD 0 else 0)).sum := by
  induction l with
  | nil => rfl
  | cons a t ih =>
    by_cases h : p a = true <;>
      simp [List.filter_cons, h, plSum_cons, ih]

/-- A key with no matrix row has an empty matrix fiber. -/
theorem keyInMatrix_false_filter (m : List MatrixEntry) (k : String)
    (h : keyInMatrix m k = false) :
    m.filter (fun e => e.source_key == k) = [] := by
  rw [List.filter_eq_nil_iff]
  intro e he hek
  rw [keyInMatrix] at h
  have : m.any (fun e => e.source_key == k) = true :=
    List.any_eq_true.mpr ⟨e, he, hek⟩
  rw [h] at this
  cases this

/-- Claim C2: the round-trip conservation law of the weighted aggregator.
When the weights of every source key of the matrix sum to 1 (which the
normalization of C1 establishes), the sum of the additive aggregate over all
output cells equals the sum of the original attribute values over the source
geometries present in the matrix, exactly in rational arithmetic.  Null
attribute values carry no mass on either side, matching the polars sums. -/
theorem weighted_aggregation_conserves_mass (rows : List AttrRow)
    (m : List MatrixEntry)
    (h1 : ∀ k ∈ m.map MatrixEntry.source_key, keyWeightSum m k = 1) :
    totalOut rows m = totalIn rows m := by
  have hcell : ∀ cell : String,
      plSum ((cellJoinRows rows m cell).map wContrib)
        = (((attrJoin rows m).filter (fun p => p.2.cell_index == cell)).map
            (fun p => (wContrib p).getD 0)).sum := by
    intro cell
    rw [cellJoinRows, plSum_map_eq_sum_getD]
  have step1 : totalOut rows m
      = ((attrJoin rows m).map (fun p => (wContrib p).getD 0)).sum := by
    rw [totalOut, outCells, List.map_congr_left (fun cell _ => hcell cell)]
    exact sum_over_fibers (attrJoin rows m) (fun p => p.2.cell_index)
      (fun p => (wContrib p).getD 0)
  have step2 : ((attrJoin rows m).map (fun p => (wContrib p).getD 0)).sum
      = (rows.map (fun r =>
          if keyInMatrix m r.source_key = true then r.value.getD 0 else 0)).sum := by
    rw [attrJoin, sum_map_flatMap]
    congr 1
    apply List.map_congr_left
    intro r _
    rw [List.map_map]
    by_cases hkey : keyInMatrix m r.source_key = true
    · have hmem : r.source_key ∈ m.map MatrixEntry.source_key := by
        rw [keyInMatrix, List.any_eq_true] at hkey
        rcases hkey with ⟨e, he, hek⟩
        exact List.mem_map.mpr ⟨e, he, by simpa using hek⟩
      have hsum : keyWeightSum m r.source_key = 1 := h1 _ hmem
      cases hv : r.value with
      | none =>
        have hz : ((m.filter (fun e => e.source_key == r.source_key)).map
            ((fun p => (wContrib p).getD 0) ∘ (fun e => (r, e))))
            = (m.filter (fun e => e.source_key == r.source_key)).map
                (fun _ => (0 : ℚ)) := by
          apply List.map_congr_left
          intro e _
          simp [Function.comp, wContrib, hv]
        rw [hz]
        simp [hkey]
      | some v =>
        have hv' : ((m.filter (fun e => e.source_key == r.source_key)).map
            ((fun p => (wContrib p).getD 0) ∘ (fun e => (r, e))))
            = (m.filter (fun e => e.source_key == r.source_key)).map
                (fun e => v * e.weight) := by
          apply List.map_congr_left
          intro e _
          simp [Function.comp, wContrib, hv]
        rw [hv', List.sum_map_mul_left]
        have : ((m.filter (fun e => e.source_key == r.source_key)).map
            (fun e => e.weight)).sum = keyWeightSum m r.source_key := rfl
        rw [this, hsum]
        simp [hkey, hv]
    · have hfalse : keyInMatrix m r.source_key = false :=
        Bool.not_eq_true _ ▸ Bool.eq_false_iff.mpr hkey
      rw [keyInMatrix_false_filter m _ hfalse]
      simp [hkey]
  have step3 : totalIn rows m
      = (rows.map (fun r =>
          if keyInMatrix m r.source_key = true then r.value.getD 0 else 0)).sum := by
    rw [totalIn]
    exact plSum_filter_map rows (fun r => keyInMatrix m r.source_key) AttrRow.value
  rw [step1, step2, step3]

/-- Witness for C2 at a concrete table: one source of value 10 split 1/2 and
1/2 over two cells; both sides of the conservation law equal 10. -/
theorem weighted_aggregation_conserves_mass_witness :
    (∀ k ∈ ([⟨"a", "c1", 1 / 2⟩, ⟨"a", "c2", 1 / 2⟩] : List MatrixEntry).map
        MatrixEntry.source_key,
      keyWeightSum [⟨"a", "c1", 1 / 2⟩, ⟨"a", "c2", 1 / 2⟩] k = 1) ∧
    totalOut [⟨"a", some 10⟩] [⟨"a", "c1", 1 / 2⟩, ⟨"a", "c2", 1 / 2⟩]
      = totalIn [⟨"a", some 10⟩] [⟨"a", "c1", 1 / 2⟩, ⟨"a", "c2", 1 / 2⟩] := by
  have h1 : ∀ k ∈ ([⟨"a", "c1", 1 / 2⟩, ⟨"a", "c2", 1 / 2⟩] : List MatrixEntry).map
      MatrixEntry.source_key,
      keyWeightSum [⟨"a", "c1", 1 / 2⟩, ⟨"a", "c2", 1 / 2⟩] k = 1 := by
    intro k hk
    have hk' : k = "a" := by
      simpa using hk
    subst hk'
    norm_num [keyWeightSum, List.filter_cons]
  exact ⟨h1, weighted_aggregation_conserves_mass _ _ h1⟩

/-- Counterexample to C3: in process_quarter_file the group denominator
weight_sum is the matrix weight of every joined row, with no regard to which
columns are null.  Appending a tile row whose avg_d_kbps is null, carrying
matrix weight 1 into the cell, drags the weighted mean of avg_d_kbps from 10
down to 5, so a null value does contribute to the weight-sum denominator and
does alter the mean. -/
theorem null_row_alters_weighted_mean :
    quarterAvg [⟨"A", some 10, none, none, none, none⟩]
      [⟨"A", "c0", 1⟩, ⟨"B", "c0", 1⟩] "c0" TileRow.avg_d_kbps = 10 ∧
    quarterAvg [⟨"A", some 10, none, none, none, none⟩,
        ⟨"B", none, none, none, none, none⟩]
      [⟨"A", "c0", 1⟩, ⟨"B", "c0", 1⟩] "c0" TileRow.avg_d_kbps = 5 := by
  constructor
  · simp +decide [quarterAvg, col_weighted_sum, weight_sum, tileCellRows,
      tileJoin, List.filter_cons, plSum, List.filterMap_cons]
  · simp +decide [quarterAvg, col_weighted_sum, weight_sum, tileCellRows,
      tileJoin, List.filter_cons, plSum, List.filterMap_cons]
    norm_num

/-- Amended C3: a null value contributes nothing to the numerator of its
column, but its row's matrix weight still enters the single weight_sum
denominator shared by every intensive column, so appending a null-valued row
of cell weight w turns the aggregate N / S into N / (S + w). -/
theorem null_value_shares_denominator (rows : List TileRow) (r : TileRow)
    (m : List MatrixEntry) (cell : String) (proj : TileRow → Option ℚ)
    (hnull : proj r = none) :
    col_weighted_sum (rows ++ [r]) m cell proj = col_weighted_sum rows m cell proj ∧
    weight_sum (rows ++ [r]) m cell = weight_sum rows m cell + rowCellWeight r m cell ∧
    quarterAvg (rows ++ [r]) m cell proj
      = col_weighted_sum rows m cell proj
        / (weight_sum rows m cell + rowCellWeight r m cell) := by
  have hjoin : tileJoin (rows ++ [r]) m
      = tileJoin rows m
        ++ (m.filter (fun e => e.source_key == r.quadkey)).map (fun e => (r, e)) := by
    rw [tileJoin, tileJoin, List.flatMap_append]
    simp
  have hcells : tileCellRows (rows ++ [r]) m cell
      = tileCellRows rows m cell
        ++ ((m.filter (fun e => e.source_key == r.quadkey)).map
            (fun e => (r, e))).filter (fun p => p.2.cell_index == cell) := by
    rw [tileCellRows, hjoin, List.filter_append, tileCellRows]
  have htail : ((m.filter (fun e => e.source_key == r.quadkey)).map
      (fun e => (r, e))).filter (fun p => p.2.cell_index == cell)
      = ((m.filter (fun e => e.source_key == r.quadkey)).filter
          (fun e => e.cell_index == cell)).map (fun e => (r, e)) := by
    rw [List.filter_map]
    rfl
  have hA : col_weighted_sum (rows ++ [r]) m cell proj
      = col_weighted_sum rows m cell proj := by
    rw [col_weighted_sum, hcells, List.map_append, plSum_append, htail]
    have hz : plSum ((((m.filter (fun e => e.source_key == r.quadkey)).filter
        (fun e => e.cell_index == cell)).map (fun e => (r, e))).map
          (fun p => (proj p.1).map (fun v => v * p.2.weight))) = 0 := by
      rw [List.map_map]
      apply plSum_eq_zero_of_all_none
      intro e _
      simp [Function.comp, hnull]
    rw [hz, col_weighted_sum]
    ring
  have hB : weight_sum (rows ++ [r]) m cell
      = weight_sum rows m cell + rowCellWeight r m cell := by
    rw [weight_sum, hcells, List.map_append, List.sum_append, htail, List.map_map]
    rw [weight_sum, rowCellWeight]
    congr 1
    rw [List.filter_filter]
    have hswap : (m.filter (fun e => e.cell_index == cell
          && e.source_key == r.quadkey))
        = m.filter (fun e => e.source_key == r.quadkey
          && e.cell_index == cell) := by
      apply List.filter_congr
      intro e _
      rw [Bool.and_comm]
    rw [hswap]
    rfl
  exact ⟨hA, hB, by rw [quarterAvg, hA, hB]⟩

/-- Witness for the amended C3 at the counterexample data: the null row keeps
the numerator at 10 and raises the denominator from 1 to 2. -/
theorem null_value_shares_denominator_witness :
    col_weighted_sum [⟨"A", some 10, none, none, none, none⟩,
        ⟨"B", none, none, none, none, none⟩]
      [⟨"A", "c0", 1⟩, ⟨"B", "c0", 1⟩] "c0" TileRow.avg_d_kbps
      = col_weighted_sum [⟨"A", some 10, none, none, none, none⟩]
          [⟨"A", "c0", 1⟩, ⟨"B", "c0", 1⟩] "c0" TileRow.avg_d_kbps ∧
    weight_sum [⟨"A", some 10, none, none, none, none⟩,
        ⟨"B", none, none, none, none, none⟩]
      [⟨"A", "c0", 1⟩, ⟨"B", "c0", 1⟩] "c0"
      = weight_sum [⟨"A", some 10, none, none, none, none⟩]
          [⟨"A", "c0", 1⟩, ⟨"B", "c0", 1⟩] "c0"
        + rowCellWeight ⟨"B", none, none, none, none, none⟩
            [⟨"A", "c0", 1⟩, ⟨"B", "c0", 1⟩] "c0" ∧
    quarterAvg [⟨"A", some 10, none, none, none, none⟩,
        ⟨"B", none, none, none, none, none⟩]
      [⟨"A", "c0", 1⟩, ⟨"B", "c0", 1⟩] "c0" TileRow.avg_d_kbps
      = col_weighted_sum [⟨"A", some 10, none, none, none, none⟩]
          [⟨"A", "c0", 1⟩, ⟨"B", "c0", 1⟩] "c0" TileRow.avg_d_kbps
        / (weight_sum [⟨"A", some 10, none, none, none, none⟩]
            [⟨"A", "c0", 1⟩, ⟨"B", "c0", 1⟩] "c0"
          + rowCellWeight ⟨"B", none, none, none, none, none⟩
              [⟨"A", "c0", 1⟩, ⟨"B", "c0", 1⟩] "c0") :=
  null_value_shares_denominator [⟨"A", some 10, none, none, none, none⟩]
    ⟨"B", none, none, none, none, none⟩
    [⟨"A", "c0", 1⟩, ⟨"B", "c0", 1⟩] "c0" TileRow.avg_d_kbps rfl

/-- Anatomy of a fused row: it stems from a population row and a health row
with the same cell index, and its internet part is either null because the
left join found no internet row for the cell, or one of the matching internet
rows. -/
theorem mem_merge_datasets_unpack (pop : List PopRow) (health : List HealthRow)
    (internet : List InternetRow) (r : MergedRow)
    (hr : r ∈ merge_datasets pop health internet) :
    ∃ p ∈ pop, ∃ h ∈ health, h.h3_index = p.h3_index ∧ r.pop = p ∧
      r.health_distance = h.health_distance ∧
      ((internet.filter (fun i => i.h3_index == p.h3_index) = [] ∧
          r.internet = none) ∨
        (∃ i ∈ internet, i.h3_index = p.h3_index ∧ r.internet = some i)) := by
  rw [merge_datasets] at hr
  rcases List.mem_flatMap.mp hr with ⟨ph, hph, hrf⟩
  rcases List.mem_flatMap.mp hph with ⟨p, hp, hmem⟩
  rcases List.mem_map.mp hmem with ⟨h, hfil, rfl⟩
  have hh : h ∈ health := (List.mem_filter.mp hfil).1
  have hhk : h.h3_index = p.h3_index := by
    have := (List.mem_filter.mp hfil).2
    simpa using this
  refine ⟨p, hp, h, hh, hhk, ?_⟩
  by_cases hms : (internet.filter (fun i => i.h3_index == p.h3_index)).isEmpty
  · rw [if_pos hms] at hrf
    have hr' : r = ⟨p, h.health_distance, none⟩ := by simpa using hrf
    subst hr'
    exact ⟨rfl, rfl, Or.inl ⟨List.isEmpty_iff.mp hms, rfl⟩⟩
  · rw [if_neg hms] at hrf
    rcases List.mem_map.mp hrf with ⟨i, hi, rfl⟩
    have hii : i ∈ internet := (List.mem_filter.mp hi).1
    have hik : i.h3_index = p.h3_index := by
      have := (List.mem_filter.mp hi).2
      simpa using this
    exact ⟨rfl, rfl, Or.inr ⟨i, hii, hik, rfl⟩⟩

/-- Claim C4: population is inner-joined with health and the result is
left-joined with internet.  A cell absent from the health table never reaches
the fused output, whatever the internet table holds; a cell present in both
population and health appears, and when it is absent from the internet table
every fused row of that cell carries null internet columns. -/
theorem fuser_join_semantics (pop : List PopRow) (health : List HealthRow)
    (internet : List InternetRow) (cell : String)
    (hpop : cell ∈ pop.map PopRow.h3_index) :
    (cell ∉ health.map HealthRow.h3_index →
      ∀ r ∈ merge_datasets pop health internet, r.pop.h3_index ≠ cell) ∧
    (cell ∈ health.map HealthRow.h3_index →
      (∃ r ∈ merge_datasets pop health internet, r.pop.h3_index = cell) ∧
      (cell ∉ internet.map InternetRow.h3_index →
        ∀ r ∈ merge_datasets pop health internet,
          r.pop.h3_index = cell → r.internet = none)) := by
  constructor
  · intro hnoh r hr hcell
    rcases mem_merge_datasets_unpack pop health internet r hr with
      ⟨p, _, h, hh, hhk, hpopr, _, _⟩
    apply hnoh
    refine List.mem_map.mpr ⟨h, hh, ?_⟩
    rw [hhk, ← hpopr, hcell]
  · intro hheal
    constructor
    · rcases List.mem_map.mp hpop with ⟨p, hp, hpk⟩
      rcases List.mem_map.mp hheal with ⟨h, hh, hhk⟩
      have hfil : h ∈ health.filter (fun x => x.h3_index == p.h3_index) :=
        List.mem_filter.mpr ⟨hh, by simp [hhk, hpk]⟩
      have hph : (p, h) ∈ pop.flatMap (fun q =>
          (health.filter (fun x => x.h3_index == q.h3_index)).map
            (fun x => (q, x))) :=
        List.mem_flatMap.mpr ⟨p, hp, List.mem_map.mpr ⟨h, hfil, rfl⟩⟩
      by_cases hms : (internet.filter (fun i => i.h3_index == p.h3_index)).isEmpty
      · refine ⟨⟨p, h.health_distance, none⟩, ?_, hpk⟩
        rw [merge_datasets]
        apply List.mem_flatMap.mpr
        refine ⟨(p, h), hph, ?_⟩
        rw [if_pos hms]
        simp
      · have hne : (internet.filter (fun i => i.h3_index == p.h3_index)) ≠ [] := by
          intro hnil
          rw [hnil] at hms
          exact hms rfl
        rcases List.exists_mem_of_ne_nil _ hne with ⟨i, hi⟩
        refine ⟨⟨p, h.health_distance, some i⟩, ?_, hpk⟩
        rw [merge_datasets]
        apply List.mem_flatMap.mpr
        refine ⟨(p, h), hph, ?_⟩
        rw [if_neg hms]
        exact List.mem_map.mpr ⟨i, hi, rfl⟩
    · intro hnoi r hr hcell
      rcases mem_merge_datasets_unpack pop health internet r hr with
        ⟨p, _, h, _, _, hpopr, _, hint⟩
      rcases hint with ⟨_, hnone⟩ | ⟨i, hi, hik, _⟩
      · exact hnone
      · exfalso
        apply hnoi
        refine List.mem_map.mpr ⟨i, hi, ?_⟩
        rw [hik, ← hpopr, hcell]

/-- Witness for C4: cell x is in population and internet but not health and
vanishes; cell y is in population and health but not internet and survives
with null internet columns. -/
theorem fuser_join_semantics_witness :
    ((("x" : String) ∉ ([⟨"y", some 3⟩] : List HealthRow).map HealthRow.h3_index) →
      ∀ r ∈ merge_datasets
        [⟨"x", 0, 0, 5, 0, 0, 0, 0, 0, 0, 0, 0, 0, 0, 0, 0⟩,
         ⟨"y", 0, 0, 7, 0, 0, 0, 0, 0, 0, 0, 0, 0, 0, 0, 0⟩]
        [⟨"y", some 3⟩]
        [⟨"x", some 1, none, none, none, none, none, none, none, none, none,
          none, none⟩],
        r.pop.h3_index ≠ "x") ∧
    ∀ r ∈ merge_datasets
      [⟨"x", 0, 0, 5, 0, 0, 0, 0, 0, 0, 0, 0, 0, 0, 0, 0⟩,
       ⟨"y", 0, 0, 7, 0, 0, 0, 0, 0, 0, 0, 0, 0, 0, 0, 0⟩]
      [⟨"y", some 3⟩]
      [⟨"x", some 1, none, none, none, none, none, none, none, none, none,
        none, none⟩],
      r.pop.h3_index = "y" → r.internet = none := by
  constructor
  · exact (fuser_join_semantics
      [⟨"x", 0, 0, 5, 0, 0, 0, 0, 0, 0, 0, 0, 0, 0, 0, 0⟩,
       ⟨"y", 0, 0, 7, 0, 0, 0, 0, 0, 0, 0, 0, 0, 0, 0, 0⟩]
      [⟨"y", some 3⟩]
      [⟨"x", some 1, none, none, none, none, none, none, none, none, none,
        none, none⟩] "x" (by simp)).1
  · exact ((fuser_join_semantics
      [⟨"x", 0, 0, 5, 0, 0, 0, 0, 0, 0, 0, 0, 0, 0, 0, 0⟩,
       ⟨"y", 0, 0, 7, 0, 0, 0, 0, 0, 0, 0, 0, 0, 0, 0, 0⟩]
      [⟨"y", some 3⟩]
      [⟨"x", some 1, none, none, none, none, none, none, none, none, none,
        none, none⟩] "y" (by simp)).2 (by simp)).2 (by simp +decide)

/-- Rat.floor agrees with the floor of the archimedean order structure. -/
theorem ratFloor_eq_intFloor (q : ℚ) : q.floor = ⌊q⌋ := by
  rw [Rat.floor_def', Rat.floor_def]

/-- Counterexample to C5: a cell whose aggregated population is 2/5 passes
the pop_total > 0 filter of filter_and_finalize, but save_output then rounds
its population to the integer 0, so the persisted dataset does contain a row
with pop_total = 0. -/
theorem rounding_reintroduces_zero_population :
    (save_output (filter_and_finalize (merge_datasets
        [⟨"c", 0, 0, 2 / 5, 0, 0, 0, 0, 0, 0, 0, 0, 0, 0, 0, 0⟩]
        [⟨"c", some 3⟩] []))).map SavedRow.pop_total = [0] ∧
    (filter_and_finalize (merge_datasets
        [⟨"c", 0, 0, 2 / 5, 0, 0, 0, 0, 0, 0, 0, 0, 0, 0, 0, 0⟩]
        [⟨"c", some 3⟩] [])).map (fun r => r.pop.pop_total) = [2 / 5] := by
  have hm : merge_datasets
      [⟨"c", 0, 0, 2 / 5, 0, 0, 0, 0, 0, 0, 0, 0, 0, 0, 0, 0⟩]
      [⟨"c", some 3⟩] []
      = [⟨⟨"c", 0, 0, 2 / 5, 0, 0, 0, 0, 0, 0, 0, 0, 0, 0, 0, 0⟩, some 3, none⟩] := by
    simp +decide [merge_datasets]
  have hf : filter_and_finalize
      [(⟨⟨"c", 0, 0, 2 / 5, 0, 0, 0, 0, 0, 0, 0, 0, 0, 0, 0, 0⟩, some 3, none⟩ : MergedRow)]
      = [⟨⟨"c", 0, 0, 2 / 5, 0, 0, 0, 0, 0, 0, 0, 0, 0, 0, 0, 0⟩, some 3, none⟩] := by
    simp [filter_and_finalize, List.filter_cons,
      show (0 : ℚ) < 2 / 5 from by norm_num]
  have hra : roundAway (2 / 5) = 0 := by
    rw [roundAway, if_pos (show (0 : ℚ) ≤ 2 / 5 from by norm_num),
      show (2 / 5 + 1 / 2 : ℚ) = 9 / 10 from by norm_num,
      ratFloor_eq_intFloor]
    exact Int.floor_eq_iff.mpr ⟨by norm_num, by norm_num⟩
  rw [hm, hf]
  exact ⟨by simp [save_output, hra], by simp⟩

/-- Amended C5: every row retained by filter_and_finalize has positive
pop_total and a non-null health distance, and the persisted row keeps the
health distance non-null; but the integer cast only guarantees a nonnegative
population, since a population in (0, 1/2) rounds to 0. -/
theorem fused_rows_filter_guarantees (pop : List PopRow) (health : List HealthRow)
    (internet : List InternetRow) (r : MergedRow)
    (hr : r ∈ filter_and_finalize (merge_datasets pop health internet)) :
    (0 < r.pop.pop_total ∧ r.health_distance ≠ none) ∧
    ∀ s ∈ save_output (filter_and_finalize (merge_datasets pop health internet)),
      0 ≤ s.pop_total ∧ s.health_distance ≠ none := by
  constructor
  · have hcond := (List.mem_filter.mp hr).2
    rw [Bool.and_eq_true, decide_eq_true_eq, Option.isSome_iff_exists] at hcond
    rcases hcond with ⟨hpos, v, hv⟩
    exact ⟨hpos, by rw [hv]; exact Option.some_ne_none v⟩
  · intro s hs
    rcases List.mem_map.mp hs with ⟨r', hr', rfl⟩
    have hcond := (List.mem_filter.mp hr').2
    rw [Bool.and_eq_true, decide_eq_true_eq, Option.isSome_iff_exists] at hcond
    rcases hcond with ⟨hpos, v, hv⟩
    constructor
    · show (0 : ℤ) ≤ roundAway r'.pop.pop_total
      rw [roundAway, if_pos (le_of_lt hpos)]
      exact Rat.le_floor.mpr (by push_cast; linarith)
    · show r'.health_distance.map (roundTo 2) ≠ none
      rw [hv]
      simp

/-- Witness for the amended C5 at the counterexample tables: the retained
row has population 2/5 > 0 and health distance some 3. -/
theorem fused_rows_filter_guarantees_witness :
    ((0 : ℚ) < (2 / 5 : ℚ) ∧
      (some (3 : ℚ) ≠ none)) ∧
    ∀ s ∈ save_output (filter_and_finalize (merge_datasets
        [⟨"c", 0, 0, 2 / 5, 0, 0, 0, 0, 0, 0, 0, 0, 0, 0, 0, 0⟩]
        [⟨"c", some 3⟩] [])),
      0 ≤ s.pop_total ∧ s.health_distance ≠ none :=
  fused_rows_filter_guarantees
    [⟨"c", 0, 0, 2 / 5, 0, 0, 0, 0, 0, 0, 0, 0, 0, 0, 0, 0⟩]
    [⟨"c", some 3⟩] []
    ⟨⟨"c", 0, 0, 2 / 5, 0, 0, 0, 0, 0, 0, 0, 0, 0, 0, 0, 0⟩, some 3, none⟩
    (by
      have hm : merge_datasets
          [⟨"c", 0, 0, 2 / 5, 0, 0, 0, 0, 0, 0, 0, 0, 0, 0, 0, 0⟩]
          [⟨"c", some 3⟩] []
          = [⟨⟨"c", 0, 0, 2 / 5, 0, 0, 0, 0, 0, 0, 0, 0, 0, 0, 0, 0⟩, some 3, none⟩] := by
        simp +decide [merge_datasets]
      rw [hm]
      simp [filter_and_finalize, List.filter_cons,
        show (0 : ℚ) < 2 / 5 from by norm_num])

/-- Counterexample to C6: a cell whose only contributing source row is null
for the aggregated column receives the non-null aggregate 0, not null,
because the polars group sum of an all-null group is 0. -/
theorem all_null_group_aggregates_to_zero :
    cellAgg [⟨"g1", none⟩] [⟨"g1", "c0", 1⟩] "c0" = some 0 ∧
    cellAgg [⟨"g1", none⟩] [⟨"g1", "c0", 1⟩] "c0" ≠ none := by
  constructor
  · simp +decide [cellAgg, cellJoinRows, attrJoin, wContrib, plSum,
      List.filter_cons]
  · simp [cellAgg]

/-- Amended C6: a cell with no row at all in a quarter cache gets null for
that quarter's columns through the left join of etl_internet main; but a cell
of the aggregation output whose contributing rows are all null for a column
gets the non-null aggregate 0 for it. -/
theorem zero_contribution_semantics (rows : List AttrRow) (m : List MatrixEntry)
    (cell : String)
    (hnull : ∀ p ∈ cellJoinRows rows m cell, p.1.value = none)
    (c : QuarterCache) (proj : CacheVals → ℚ)
    (hfind : c.rows.find? (fun r => r.1 == cell) = none) :
    cellAgg rows m cell = some 0 ∧ quarterColValue c cell proj = none := by
  constructor
  · rw [cellAgg]
    congr 1
    apply plSum_eq_zero_of_all_none
    intro p hp
    have : wContrib p = none := by
      rw [wContrib, hnull p hp]
      rfl
    exact this
  · rw [quarterColValue, hfind]
    rfl

/-- Witness for the amended C6: the all-null source row of the counterexample
and an empty 2023 fixed quarter cache. -/
theorem zero_contribution_semantics_witness :
    cellAgg [⟨"g1", none⟩] [⟨"g1", "c0", 1⟩] "c0" = some 0 ∧
    quarterColValue ⟨Modality.fixedNet, 2023, 1, []⟩ "c0" CacheVals.avg_d_kbps
      = none :=
  zero_contribution_semantics [⟨"g1", none⟩] [⟨"g1", "c0", 1⟩] "c0"
    (by simp +decide [cellJoinRows, attrJoin, List.filter_cons])
    ⟨Modality.fixedNet, 2023, 1, []⟩ CacheVals.avg_d_kbps rfl

/-- Counterexample to C7: a matrix file left behind by an aborted write is
accepted as a complete cache hit.  The run that finds the incomplete artifact
returns it untouched and never rebuilds, although a fresh run on the same
input would have produced a complete artifact. -/
theorem grid_main_fresh (gs : List GeomInput) (hgs : gs ≠ [])
    (hm : calculate_intersection_weights gs ≠ []) :
    grid_main none gs
      = some ⟨true, normalize_weights (calculate_intersection_weights gs)⟩ := by
  simp only [grid_main]
  rw [if_neg hgs, if_neg hm]

theorem incomplete_artifact_accepted_as_cache_hit :
    grid_main (some ⟨false, []⟩) [⟨"g1", true, 1, [("c0", 1 / 2)]⟩]
      = some ⟨false, []⟩ ∧
    (grid_main none [⟨"g1", true, 1, [("c0", 1 / 2)]⟩]).map
      MatrixArtifact.complete = some true := by
  constructor
  · rfl
  · have hcalc : calculate_intersection_weights
        [⟨"g1", true, 1, [("c0", 1 / 2)]⟩] = [⟨"g1", "c0", 1 / 2⟩] := by
      norm_num [calculate_intersection_weights, processGeom,
        List.filterMap_cons]
    have hne : calculate_intersection_weights
        [⟨"g1", true, 1, [("c0", 1 / 2)]⟩] ≠ [] := by
      rw [hcalc]
      simp
    rw [grid_main_fresh _ (by simp) hne]
    rfl

/-- Amended C7: the builder decides its cache hit on mere file existence and
returns whatever artifact it finds, complete or not, without rebuilding; only
a run that finds no file at all computes the matrix, which is then written
straight to the final path. -/
theorem builder_cache_hit_on_existence (a : MatrixArtifact) (gs : List GeomInput) :
    grid_main (some a) gs = some a := rfl

/-- Counterexample to C8: a batch holding one degenerate geometry returns the
same value as the empty batch, for a reprojection failure as well as for a
zero area, so no skipped-count appears anywhere in the builder's output and
the skip is unobservable downstream. -/
theorem skipped_geometry_leaves_no_trace :
    process_grid_batch [⟨"gBad", false, 1, [("c0", 1 / 2)]⟩]
      = process_grid_batch [] ∧
    process_grid_batch [⟨"gBad2", true, 0, [("c0", 1 / 2)]⟩]
      = process_grid_batch [] := by
  constructor
  · rfl
  · norm_num [process_grid_batch, processGeom]

/-- Amended C8: a geometry that fails to reproject or has non-positive area
is skipped silently: it produces no matrix entries, the rest of the batch is
processed exactly as if the geometry were absent, and the batch never aborts;
no count of skipped geometries is kept. -/
theorem degenerate_geometry_skipped (pre post : List GeomInput) (g : GeomInput)
    (h : g.reprojects = false ∨ g.area ≤ 0) :
    processGeom g = [] ∧
    process_grid_batch (pre ++ g :: post) = process_grid_batch (pre ++ post) := by
  have hg : processGeom g = [] := by
    rcases h with h | h
    · rw [processGeom, if_pos h]
    · rw [processGeom]
      by_cases hrep : g.reprojects = false
      · rw [if_pos hrep]
      · rw [if_neg hrep, if_pos h]
  refine ⟨hg, ?_⟩
  rw [process_grid_batch, process_grid_batch]
  simp [hg]

/-- Witness for the amended C8: a failing geometry in the middle of a batch
changes nothing about the batch result. -/
theorem degenerate_geometry_skipped_witness :
    processGeom ⟨"gBad", false, 1, [("c0", 1 / 2)]⟩ = [] ∧
    process_grid_batch [⟨"g1", true, 1, [("c0", 1 / 2)]⟩,
        ⟨"gBad", false, 1, [("c0", 1 / 2)]⟩]
      = process_grid_batch [⟨"g1", true, 1, [("c0", 1 / 2)]⟩] :=
  degenerate_geometry_skipped [⟨"g1", true, 1, [("c0", 1 / 2)]⟩] []
    ⟨"gBad", false, 1, [("c0", 1 / 2)]⟩ (Or.inl rfl)

/-- Counterexample to C9: the cleaning loop of convert_to_h3_matrix replaces
-9999 with null only in the population columns.  A census row whose
LAND_SURFACE is -9999 keeps that sentinel after cleaning, and the weighted
aggregation then treats it as the number -9999, so not every attribute field
has its sentinel mapped to null before aggregation. -/
theorem land_surface_sentinel_not_nulled :
    (clean_census_row
      ⟨"g1", 5, 0, 0, 0, 0, 0, 0, 0, 0, 0, 0, 0, 0, -9999⟩).LAND_SURFACE
      = -9999 ∧
    cellAgg (censusLand [⟨"g1", 5, 0, 0, 0, 0, 0, 0, 0, 0, 0, 0, 0, 0, -9999⟩])
      [⟨"g1", "c0", 1⟩] "c0" = some (-9999) := by
  constructor
  · rfl
  · simp +decide [cellAgg, censusLand, clean_census_row, cellJoinRows,
      attrJoin, wContrib, plSum, List.filterMap_cons, List.filter_cons]

/-- Slicing one column out of the cleaned census table commutes with the
inner join against the matrix. -/
theorem attrJoin_census_slice (rows : List CensusRow) (m : List MatrixEntry)
    (f : CensusRow → Option ℚ) :
    attrJoin (rows.map (fun r => (⟨r.GRD_ID, f r⟩ : AttrRow))) m
      = (censusJoin rows m).map
          (fun p => ((⟨p.1.GRD_ID, f p.1⟩ : AttrRow), p.2)) := by
  rw [attrJoin, censusJoin, List.flatMap_map, List.map_flatMap]
  simp only [List.map_map]
  rfl

theorem plSum_map_ite_zero {α : Type} (l : List α) (q : α → Prop)
    [DecidablePred q] (h : α → ℚ) :
    plSum (l.map (fun x => if q x then none else some (h x)))
      = (l.map (fun x => if q x then 0 else h x)).sum := by
  induction l with
  | nil => rfl
  | cons a t ih =>
    by_cases hq : q a <;> simp [hq, plSum_cons, ih]

/-- Amended C9: the -9999 sentinel is nulled out before aggregation exactly
for the population count columns, where it then contributes nothing to the
weighted sum; LAND_SURFACE is passed through uncleaned, so a -9999 there
enters every cell aggregate as the numeric value -9999 times the weight
(though never as the value zero). -/
theorem sentinel_cleaning_scope (rows : List CensusRow) (m : List MatrixEntry)
    (cell : String) :
    cellAgg (censusT rows) m cell
      = some ((((censusJoin rows m).filter
          (fun p => p.2.cell_index == cell)).map
            (fun p => if p.1.T = -9999 then 0 else p.1.T * p.2.weight)).sum) ∧
    cellAgg (censusLand rows) m cell
      = some ((((censusJoin rows m).filter
          (fun p => p.2.cell_index == cell)).map
            (fun p => p.1.LAND_SURFACE * p.2.weight)).sum) := by
  constructor
  · rw [cellAgg, cellJoinRows, censusT,
      attrJoin_census_slice rows m (fun r => (clean_census_row r).T),
      List.filter_map, List.map_map]
    have hfun : ((censusJoin rows m).filter
        ((fun p => p.2.cell_index == cell) ∘
          (fun p => ((⟨p.1.GRD_ID, (clean_census_row p.1).T⟩ : AttrRow), p.2)))).map
        (wContrib ∘ (fun p => ((⟨p.1.GRD_ID, (clean_census_row p.1).T⟩ : AttrRow), p.2)))
        = ((censusJoin rows m).filter (fun p => p.2.cell_index == cell)).map
            (fun p => if p.1.T = -9999 then none
              else some (p.1.T * p.2.weight)) := by
      apply List.map_congr_left
      intro p _
      show (cleanVal p.1.T).map (fun v => v * p.2.weight) = _
      rw [cleanVal]
      by_cases h : p.1.T = -9999 <;> simp [h]
    rw [hfun, plSum_map_ite_zero]
  · rw [cellAgg, cellJoinRows, censusLand,
      attrJoin_census_slice rows m (fun r => some ((clean_census_row r).LAND_SURFACE)),
      List.filter_map, List.map_map]
    have hfun : ((censusJoin rows m).filter
        ((fun p => p.2.cell_index == cell) ∘
          (fun p => ((⟨p.1.GRD_ID,
            some ((clean_census_row p.1).LAND_SURFACE)⟩ : AttrRow), p.2)))).map
        (wContrib ∘ (fun p => ((⟨p.1.GRD_ID,
          some ((clean_census_row p.1).LAND_SURFACE)⟩ : AttrRow), p.2)))
        = ((censusJoin rows m).filter (fun p => p.2.cell_index == cell)).map
            (fun p => some (p.1.LAND_SURFACE * p.2.weight)) := by
      apply List.map_congr_left
      intro p _
      rfl
    rw [hfun, plSum_map_some]

/-- The foldl of plListMean accumulates the sum and the count of the non-null
entries. -/
theorem plListMean_foldl (l : List (Option ℚ)) (s : ℚ) (n : ℕ) :
    l.foldl (fun acc x =>
        match x with
        | none => acc
        | some v => (acc.1 + v, acc.2 + 1)) (s, n)
      = (s + (l.filterMap id).sum, n + (l.filterMap id).length) := by
  induction l generalizing s n with
  | nil => simp
  | cons a t ih =>
    cases a with
    | none => simp [List.filterMap_cons, ih]
    | some v =>
      simp only [List.foldl_cons, List.filterMap_cons, ih]
      rw [Prod.mk.injEq]
      constructor
      · simp [add_assoc]
      · simp [Nat.add_comm, Nat.add_assoc, Nat.add_left_comm]

/-- list.mean equals the arithmetic mean of the non-null entries, null when
there are none. -/
theorem plListMean_eq (xs : List (Option ℚ)) :
    plListMean xs
      = if xs.filterMap id = [] then none
        else some ((xs.filterMap id).sum / ((xs.filterMap id).length : ℚ)) := by
  rw [plListMean]
  simp only [plListMean_foldl, Nat.zero_add, zero_add]
  by_cases h : xs.filterMap id = []
  · rw [if_pos (by simp [h]), if_pos h]
  · have hlen : (xs.filterMap id).length ≠ 0 := by
      simpa [List.length_eq_zero] using h
    rw [if_neg hlen, if_neg h]

/-- Claim C10: every reference-period rollup column of etl_internet main is
the unweighted arithmetic mean of the cell's available quarterly values for
the matching modality and quantity (quarters where the cell is null are
skipped), and null when no contributing quarter has a value.  The twelve
concrete rollup columns, such as fixed_download_2023 or mobile_upload_total,
are rollupCol at the corresponding modality/year filter and projection. -/
theorem rollup_is_mean_of_available_quarters (caches : List QuarterCache)
    (cell : String) (pick : QuarterCache → Bool) (proj : CacheVals → ℚ) :
    rollupCol caches cell pick proj
      = if availableVals caches cell pick proj = [] then none
        else some ((availableVals caches cell pick proj).sum
            / ((availableVals caches cell pick proj).length : ℚ)) := by
  rw [rollupCol, plListMean_eq, availableVals]


